import Mathlib

/-
Verification of the core-engine cross-chain bridge relayer.

This file embeds the relayer's orchestration loop (src/script.py) and the
configuration environment-override logic (src/config.py) as executable Lean
definitions, and proves (or refutes) the specified properties about them.

Conventions of the embedding:
  - Python exceptions are modelled with Except; a try/except block becomes a
    match on the Except value.
  - Network and RPC results (chain height, fetched events, gas-station HTTP
    responses, per-event processing outcomes) are oracle inputs to the pure
    step functions, since the code reads them from the outside world.
  - Python dicts are association lists; Python sets are lists used only
    through membership and insertion.
-/

namespace CoreEngine

/-! ## Constants taken from the CONFIG dictionary in src/script.py -/

/-- CONFIG run_interval_seconds in src/script.py (line 35). -/
def RUN_INTERVAL_SECONDS : Nat := 30

/-- CONFIG block_processing_limit in src/script.py (line 36), documented there
as the max blocks to process in one go. -/
def BLOCK_PROCESSING_LIMIT : Nat := 100

/-- The back-off used by CrossChainBridgeListener.run after a critical
unhandled error (time.sleep(60) at src/script.py line 312). -/
def CRITICAL_BACKOFF_SECONDS : Nat := 60

/-! ## Events and listener state (src/script.py, CrossChainBridgeListener) -/

/-- The two fields of a decoded lock event that _poll_for_events reads: the
block number used for ordering, and the hex string of the 32-byte transaction
nonce used for deduplication (event.args.transactionNonce.hex()). -/
structure LockEvent where
  blockNumber : Nat
  transactionNonce : String
deriving DecidableEq

/-- The mutable state of CrossChainBridgeListener: last_processed_block and
processed_tx_nonces (a Python set, modelled as a list used via membership). -/
structure ListenerState where
  last_processed_block : Nat
  processed_tx_nonces : List String
deriving DecidableEq

/-- Result of processing one batch of events: the updated nonce set, the
updated global count of process_lock_event invocations, and the trace of
invocations made (event together with the boolean the handler returned). -/
structure BatchResult where
  nonces : List String
  calls : Nat
  trace : List (LockEvent × Bool)
deriving DecidableEq

/-- The per-event loop of _poll_for_events (src/script.py lines 284-291):
for each event in order, skip it when its nonce is already in the processed
set, otherwise invoke the handler and add the nonce only when the handler
returned True.  The handler outcome is an oracle indexed by the number of
invocations made so far, so an arbitrary schedule of successes and failures
can be expressed. -/
def processBatch (proc : Nat → Bool) : List LockEvent → List String → Nat → BatchResult
  | [], nonces, calls => ⟨nonces, calls, []⟩
  | e :: rest, nonces, calls =>
    if e.transactionNonce ∈ nonces then
      processBatch proc rest nonces calls
    else
      let r := proc calls
      let res := processBatch proc rest
        (if r then e.transactionNonce :: nonces else nonces) (calls + 1)
      ⟨res.nonces, res.calls, (e, r) :: res.trace⟩

/-- Number of handler invocations recorded in a trace for a given nonce. -/
def traceCount (tr : List (LockEvent × Bool)) (x : String) : Nat :=
  tr.countP (fun p => decide (p.1.transactionNonce = x))

/-- Number of successful handler invocations recorded in a trace for a given
nonce. -/
def succCount (tr : List (LockEvent × Bool)) (x : String) : Nat :=
  tr.countP (fun p => decide (p.1.transactionNonce = x) && p.2)

/-- Stable ascending insertion by block number: the inserted event goes after
every event with a block number less than or equal to its own. -/
def insertByBlock (e : LockEvent) : List LockEvent → List LockEvent
  | [] => [e]
  | f :: rest =>
    if f.blockNumber ≤ e.blockNumber then f :: insertByBlock e rest
    else e :: f :: rest

/-- The sorted(events, key=blockNumber) call at src/script.py line 284: a
stable ascending sort by block number. -/
def sortEvents (events : List LockEvent) : List LockEvent :=
  events.foldr insertByBlock []

/-- What one poll cycle reads from the outside world: the source chain height
(get_latest_block) and the events returned by get_events for the scan range
(get_events already degrades failures to an empty list). -/
structure CycleInput where
  latest_block : Nat
  events : List LockEvent
deriving DecidableEq

/-- Result of one or more poll cycles: final listener state, final invocation
count, and the cumulative invocation trace. -/
structure RelayResult where
  state : ListenerState
  calls : Nat
  trace : List (LockEvent × Bool)
deriving DecidableEq

/-- from_block = self.last_processed_block + 1 (src/script.py line 265). -/
def scanFrom (s : ListenerState) : Nat :=
  s.last_processed_block + 1

/-- to_block = min(latest_block, from_block + block_processing_limit)
(src/script.py line 266).  Note the source adds the limit without
subtracting one. -/
def scanTo (limit latest : Nat) (s : ListenerState) : Nat :=
  min latest (scanFrom s + limit)

/-- Number of blocks a cycle scans: the size of the inclusive range
[from_block, to_block], zero when the range is empty. -/
def scannedBlockCount (limit latest : Nat) (s : ListenerState) : Nat :=
  if scanTo limit latest s < scanFrom s then 0
  else scanTo limit latest s - scanFrom s + 1

/-- The body of _poll_for_events (src/script.py lines 263-294), with the
chain reads supplied as the CycleInput oracle: compute the scan range, end
the cycle with no state change when from_block > to_block, otherwise process
the fetched events in stable ascending block order and advance
last_processed_block to to_block unconditionally. -/
def pollForEvents (limit : Nat) (proc : Nat → Bool) (inp : CycleInput)
    (s : ListenerState) (calls : Nat) : RelayResult :=
  let from_block := scanFrom s
  let to_block := scanTo limit inp.latest_block s
  if to_block < from_block then ⟨s, calls, []⟩
  else
    let res := processBatch proc (sortEvents inp.events) s.processed_tx_nonces calls
    ⟨⟨to_block, res.nonces⟩, res.calls, res.trace⟩

/-- A sequence of poll cycles (the repeated calls made by run), threading the
listener state and the invocation counter and concatenating the traces. -/
def runCycles (limit : Nat) (proc : Nat → Bool) :
    List CycleInput → ListenerState → Nat → RelayResult
  | [], s, calls => ⟨s, calls, []⟩
  | inp :: rest, s, calls =>
    let r := pollForEvents limit proc inp s calls
    let r2 := runCycles limit proc rest r.state r.calls
    ⟨r2.state, r2.calls, r.trace ++ r2.trace⟩

/-! ## Counting lemmas for invocation traces -/

theorem traceCount_nil (x : String) : traceCount [] x = 0 := rfl

theorem succCount_nil (x : String) : succCount [] x = 0 := rfl

theorem traceCount_cons (e : LockEvent) (b : Bool) (tr : List (LockEvent × Bool))
    (x : String) :
    traceCount ((e, b) :: tr) x =
      traceCount tr x + (if e.transactionNonce = x then 1 else 0) := by
  by_cases h : e.transactionNonce = x <;> simp [traceCount, List.countP_cons, h]

theorem succCount_cons_false (e : LockEvent) (tr : List (LockEvent × Bool))
    (x : String) :
    succCount ((e, false) :: tr) x = succCount tr x := by
  simp [succCount, List.countP_cons]

theorem succCount_cons_true (e : LockEvent) (tr : List (LockEvent × Bool))
    (x : String) :
    succCount ((e, true) :: tr) x =
      succCount tr x + (if e.transactionNonce = x then 1 else 0) := by
  by_cases h : e.transactionNonce = x <;> simp [succCount, List.countP_cons, h]

theorem traceCount_append (t1 t2 : List (LockEvent × Bool)) (x : String) :
    traceCount (t1 ++ t2) x = traceCount t1 x + traceCount t2 x := by
  simp [traceCount, List.countP_append]

theorem succCount_append (t1 t2 : List (LockEvent × Bool)) (x : String) :
    succCount (t1 ++ t2) x = succCount t1 x + succCount t2 x := by
  simp [succCount, List.countP_append]

theorem succCount_le_traceCount (tr : List (LockEvent × Bool)) (x : String) :
    succCount tr x ≤ traceCount tr x := by
  induction tr with
  | nil => simp [succCount, traceCount]
  | cons p rest ih =>
    have hle : (if (decide (p.1.transactionNonce = x) && p.2) = true then 1 else 0) ≤
        (if decide (p.1.transactionNonce = x) = true then 1 else 0) := by
      by_cases h : p.1.transactionNonce = x <;> by_cases hb : p.2 <;> simp [h, hb]
    simp only [succCount, traceCount, List.countP_cons] at *
    omega

/-! ## The dedup invariant of the per-event loop -/

/-- Invariant of the per-event loop, for any single nonce x: (1) a nonce
already in the processed set is never handed to the handler again and stays
in the set; (2) a nonce is in the resulting set exactly when it was already
there or some invocation for it succeeded; (3) at most one invocation for x
succeeds. -/
theorem processBatch_inv (proc : Nat → Bool) (events : List LockEvent)
    (nonces : List String) (calls : Nat) (x : String) :
    (x ∈ nonces → x ∈ (processBatch proc events nonces calls).nonces ∧
      traceCount (processBatch proc events nonces calls).trace x = 0) ∧
    (x ∈ (processBatch proc events nonces calls).nonces ↔
      x ∈ nonces ∨ 1 ≤ succCount (processBatch proc events nonces calls).trace x) ∧
    succCount (processBatch proc events nonces calls).trace x ≤ 1 := by
  induction events generalizing nonces calls with
  | nil => simp [processBatch, traceCount, succCount]
  | cons e rest ih =>
    by_cases hm : e.transactionNonce ∈ nonces
    · simpa only [processBatch, if_pos hm] using ih nonces calls
    · have hne : ∀ y, y ∈ nonces → e.transactionNonce ≠ y := by
        intro y hy h
        exact hm (h ▸ hy)
      cases hr : proc calls with
      | false =>
        have IH := ih nonces (calls + 1)
        simp only [processBatch, if_neg hm, hr, Bool.false_eq_true, if_false]
        refine ⟨?_, ?_, ?_⟩
        · intro hx
          refine ⟨(IH.1 hx).1, ?_⟩
          rw [traceCount_cons, (IH.1 hx).2, if_neg (hne x hx)]
        · rw [succCount_cons_false]
          exact IH.2.1
        · rw [succCount_cons_false]
          exact IH.2.2
      | true =>
        have IH := ih (e.transactionNonce :: nonces) (calls + 1)
        simp only [processBatch, if_neg hm, hr, if_true]
        refine ⟨?_, ?_, ?_⟩
        · intro hx
          have hx2 : x ∈ e.transactionNonce :: nonces := List.mem_cons_of_mem _ hx
          refine ⟨(IH.1 hx2).1, ?_⟩
          rw [traceCount_cons, (IH.1 hx2).2, if_neg (hne x hx)]
        · rw [succCount_cons_true]
          by_cases hx : e.transactionNonce = x
          · have hx2 : x ∈ e.transactionNonce :: nonces := by
              rw [hx]
              exact List.mem_cons_self _ _
            rw [if_pos hx]
            constructor
            · intro _
              right
              omega
            · intro _
              exact (IH.1 hx2).1
          · rw [if_neg hx, IH.2.1]
            constructor
            · rintro (h | h)
              · rcases List.mem_cons.mp h with h2 | h2
                · exact absurd h2.symm hx
                · exact Or.inl h2
              · exact Or.inr h
            · rintro (h | h)
              · exact Or.inl (List.mem_cons_of_mem _ h)
              · exact Or.inr h
        · rw [succCount_cons_true]
          by_cases hx : e.transactionNonce = x
          · have hx2 : x ∈ e.transactionNonce :: nonces := by
              rw [hx]
              exact List.mem_cons_self _ _
            have h0 := (IH.1 hx2).2
            have hst := succCount_le_traceCount
              (processBatch proc rest (e.transactionNonce :: nonces) (calls + 1)).trace x
            rw [if_pos hx]
            omega
          · rw [if_neg hx]
            have := IH.2.2
            omega

/-- The dedup invariant lifted through one poll cycle. -/
theorem pollForEvents_inv (limit : Nat) (proc : Nat → Bool) (inp : CycleInput)
    (s : ListenerState) (calls : Nat) (x : String) :
    (x ∈ s.processed_tx_nonces →
      x ∈ (pollForEvents limit proc inp s calls).state.processed_tx_nonces ∧
      traceCount (pollForEvents limit proc inp s calls).trace x = 0) ∧
    (x ∈ (pollForEvents limit proc inp s calls).state.processed_tx_nonces ↔
      x ∈ s.processed_tx_nonces ∨
      1 ≤ succCount (pollForEvents limit proc inp s calls).trace x) ∧
    succCount (pollForEvents limit proc inp s calls).trace x ≤ 1 := by
  simp only [pollForEvents]
  split
  · simp [traceCount, succCount]
  · simpa using processBatch_inv proc (sortEvents inp.events) s.processed_tx_nonces calls x

/-- The dedup invariant lifted through any sequence of poll cycles. -/
theorem runCycles_inv (limit : Nat) (proc : Nat → Bool) (inputs : List CycleInput)
    (s : ListenerState) (calls : Nat) (x : String) :
    (x ∈ s.processed_tx_nonces →
      x ∈ (runCycles limit proc inputs s calls).state.processed_tx_nonces ∧
      traceCount (runCycles limit proc inputs s calls).trace x = 0) ∧
    (x ∈ (runCycles limit proc inputs s calls).state.processed_tx_nonces ↔
      x ∈ s.processed_tx_nonces ∨
      1 ≤ succCount (runCycles limit proc inputs s calls).trace x) ∧
    succCount (runCycles limit proc inputs s calls).trace x ≤ 1 := by
  induction inputs generalizing s calls with
  | nil => simp [runCycles, traceCount, succCount]
  | cons inp rest ih =>
    have H1 := pollForEvents_inv limit proc inp s calls x
    have H2 := ih (pollForEvents limit proc inp s calls).state
      (pollForEvents limit proc inp s calls).calls
    simp only [runCycles, traceCount_append, succCount_append]
    have hsucc1 := succCount_le_traceCount (pollForEvents limit proc inp s calls).trace x
    have hsucc2 := succCount_le_traceCount
      (runCycles limit proc rest (pollForEvents limit proc inp s calls).state
        (pollForEvents limit proc inp s calls).calls).trace x
    refine ⟨?_, ?_, ?_⟩
    · intro hx
      have h1 := H1.1 hx
      have h2 := H2.1 h1.1
      exact ⟨h2.1, by omega⟩
    · rw [H2.2.1, H1.2.1]
      constructor
      · rintro ((h | h) | h)
        · exact Or.inl h
        · exact Or.inr (by omega)
        · exact Or.inr (by omega)
      · rintro (h | h)
        · exact Or.inl (Or.inl h)
        · by_cases h1 : 1 ≤ succCount (pollForEvents limit proc inp s calls).trace x
          · exact Or.inl (Or.inr h1)
          · exact Or.inr (by omega)
    · by_cases h1 : 1 ≤ succCount (pollForEvents limit proc inp s calls).trace x
      · have hmem : x ∈ (pollForEvents limit proc inp s calls).state.processed_tx_nonces :=
          H1.2.1.mpr (Or.inr h1)
        have h2 := H2.1 hmem
        have := H1.2.2
        omega
      · have := H2.2.2
        omega

/-! ## Cursor arithmetic of the poll loop -/

/-- One poll cycle never moves the cursor backwards. -/
theorem pollForEvents_last_mono (limit : Nat) (proc : Nat → Bool) (inp : CycleInput)
    (s : ListenerState) (calls : Nat) :
    s.last_processed_block ≤
      (pollForEvents limit proc inp s calls).state.last_processed_block := by
  simp only [pollForEvents]
  split
  · exact Nat.le_refl _
  · simp only [scanFrom, scanTo] at *
    omega

/-- A sequence of poll cycles never moves the cursor backwards. -/
theorem runCycles_last_mono (limit : Nat) (proc : Nat → Bool) (inputs : List CycleInput)
    (s : ListenerState) (calls : Nat) :
    s.last_processed_block ≤
      (runCycles limit proc inputs s calls).state.last_processed_block := by
  induction inputs generalizing s calls with
  | nil => simp [runCycles]
  | cons inp rest ih =>
    simp only [runCycles]
    exact Nat.le_trans (pollForEvents_last_mono limit proc inp s calls)
      (ih (pollForEvents limit proc inp s calls).state
        (pollForEvents limit proc inp s calls).calls)

/-- An empty scan range ends the cycle with no state change at all. -/
theorem pollForEvents_empty_range (limit : Nat) (proc : Nat → Bool) (inp : CycleInput)
    (s : ListenerState) (calls : Nat)
    (h : scanTo limit inp.latest_block s < scanFrom s) :
    pollForEvents limit proc inp s calls = ⟨s, calls, []⟩ := by
  simp only [pollForEvents, if_pos h]

/-- A non-empty scan range advances the cursor exactly to to_block,
whatever the per-event processing results were. -/
theorem pollForEvents_advances (limit : Nat) (proc : Nat → Bool) (inp : CycleInput)
    (s : ListenerState) (calls : Nat)
    (h : scanFrom s ≤ scanTo limit inp.latest_block s) :
    (pollForEvents limit proc inp s calls).state.last_processed_block =
      scanTo limit inp.latest_block s := by
  simp only [pollForEvents]
  split
  · omega
  · rfl

/-! ## Claim theorems about the poll loop -/

/-- C1: across every sequence of poll cycles and every set of fetched events,
an event whose nonce is already in the processed set is skipped without any
handler invocation, a nonce is in the set exactly when it was there initially
or a handler invocation for it returned success, and at most one handler
invocation per nonce ever records a success. -/
theorem nonce_dedup_at_most_once (limit : Nat) (proc : Nat → Bool)
    (inputs : List CycleInput) (s : ListenerState) (calls : Nat) (x : String) :
    (x ∈ s.processed_tx_nonces →
      x ∈ (runCycles limit proc inputs s calls).state.processed_tx_nonces ∧
      traceCount (runCycles limit proc inputs s calls).trace x = 0) ∧
    (x ∈ (runCycles limit proc inputs s calls).state.processed_tx_nonces ↔
      x ∈ s.processed_tx_nonces ∨
      1 ≤ succCount (runCycles limit proc inputs s calls).trace x) ∧
    succCount (runCycles limit proc inputs s calls).trace x ≤ 1 :=
  runCycles_inv limit proc inputs s calls x

/-- Witness for C1 at a concrete input: a nonce already recorded as processed
is never handed to the handler again over a cycle that observes it once more. -/
theorem nonce_dedup_at_most_once_witness :
    ("0xabc" ∈ (⟨1000000, ["0xabc"]⟩ : ListenerState).processed_tx_nonces) ∧
    traceCount (runCycles 100 (fun _ => true)
      [⟨1000005, [⟨1000001, "0xabc"⟩]⟩] ⟨1000000, ["0xabc"]⟩ 0).trace "0xabc" = 0 := by
  have h := nonce_dedup_at_most_once 100 (fun _ => true)
    [⟨1000005, [⟨1000001, "0xabc"⟩]⟩] ⟨1000000, ["0xabc"]⟩ 0 "0xabc"
  have hmem : "0xabc" ∈ (⟨1000000, ["0xabc"]⟩ : ListenerState).processed_tx_nonces := by
    simp
  exact ⟨hmem, (h.1 hmem).2⟩

/-- C2 (refutation of the spec formula): the source computes
to_block = min(latest, from_block + limit) with no subtraction of one, so
with cursor 0, chain head 1000 and the configured limit 100 a single cycle
scans blocks 1 through 101, that is 101 = limit + 1 blocks, and the cursor
lands on 101; the claimed bound of at most limit blocks is exceeded. -/
theorem bounded_batch_off_by_one :
    scanFrom ⟨0, []⟩ = 1 ∧
    scanTo BLOCK_PROCESSING_LIMIT 1000 ⟨0, []⟩ = 101 ∧
    scannedBlockCount BLOCK_PROCESSING_LIMIT 1000 ⟨0, []⟩ = 101 ∧
    BLOCK_PROCESSING_LIMIT < scannedBlockCount BLOCK_PROCESSING_LIMIT 1000 ⟨0, []⟩ ∧
    (pollForEvents BLOCK_PROCESSING_LIMIT (fun _ => true)
      ⟨1000, []⟩ ⟨0, []⟩ 0).state.last_processed_block = 101 := by
  refine ⟨rfl, rfl, rfl, by decide, rfl⟩

/-- C3: the scan range always starts exactly one block after the current
cursor, an empty range leaves the whole state unchanged, a non-empty range
advances the cursor exactly to to_block regardless of per-event processing
results, and over any one cycle or sequence of cycles the cursor is
non-decreasing — hence consecutive scanned ranges neither overlap nor leave
gaps. -/
theorem cursor_monotone_gapless (limit : Nat) (proc : Nat → Bool) (inp : CycleInput)
    (s : ListenerState) (calls : Nat) :
    scanFrom s = s.last_processed_block + 1 ∧
    (scanTo limit inp.latest_block s < scanFrom s →
      pollForEvents limit proc inp s calls = ⟨s, calls, []⟩) ∧
    (scanFrom s ≤ scanTo limit inp.latest_block s →
      (pollForEvents limit proc inp s calls).state.last_processed_block =
        scanTo limit inp.latest_block s) ∧
    s.last_processed_block ≤
      (pollForEvents limit proc inp s calls).state.last_processed_block ∧
    (∀ inputs : List CycleInput, s.last_processed_block ≤
      (runCycles limit proc inputs s calls).state.last_processed_block) :=
  ⟨rfl,
   pollForEvents_empty_range limit proc inp s calls,
   pollForEvents_advances limit proc inp s calls,
   pollForEvents_last_mono limit proc inp s calls,
   fun inputs => runCycles_last_mono limit proc inputs s calls⟩

/-- Witness for C3 at a concrete input: from a cursor at 1000000 with head
1000005 the cycle scans from 1000001 and leaves the cursor at 1000005 even
though every event in the range failed to process. -/
theorem cursor_monotone_gapless_witness :
    scanFrom ⟨1000000, []⟩ = 1000001 ∧
    (pollForEvents 100 (fun _ => false)
      ⟨1000005, [⟨1000001, "0xdead"⟩]⟩ ⟨1000000, []⟩ 0).state.last_processed_block =
      1000005 := by
  have h := cursor_monotone_gapless 100 (fun _ => false)
    ⟨1000005, [⟨1000001, "0xdead"⟩]⟩ ⟨1000000, []⟩ 0
  refine ⟨h.1, ?_⟩
  have h2 := h.2.2.1 (by decide)
  simpa using h2

/-- C5: a failed handler call is isolated to its event: the loop moves on to
the remaining events with the processed-nonce set unchanged, and — shown for
an always-failing handler — every non-duplicate event of the batch is still
invoked while the processed-nonce set does not grow at all. -/
theorem per_event_failure_isolated :
    (∀ (proc : Nat → Bool) (e : LockEvent) (rest : List LockEvent)
        (nonces : List String) (calls : Nat),
      e.transactionNonce ∉ nonces → proc calls = false →
      processBatch proc (e :: rest) nonces calls =
        ⟨(processBatch proc rest nonces (calls + 1)).nonces,
         (processBatch proc rest nonces (calls + 1)).calls,
         (e, false) :: (processBatch proc rest nonces (calls + 1)).trace⟩) ∧
    (∀ (events : List LockEvent) (nonces : List String) (calls : Nat),
      (processBatch (fun _ => false) events nonces calls).nonces = nonces ∧
      (processBatch (fun _ => false) events nonces calls).trace =
        (events.filter (fun e => !decide (e.transactionNonce ∈ nonces))).map
          (fun e => (e, false))) := by
  constructor
  · intro proc e rest nonces calls hm hf
    simp only [processBatch, if_neg hm, hf, Bool.false_eq_true, if_false]
  · intro events
    induction events with
    | nil => simp [processBatch]
    | cons e rest ih =>
      intro nonces calls
      by_cases hm : e.transactionNonce ∈ nonces
      · simpa only [processBatch, if_pos hm, List.filter_cons, decide_eq_true_eq, hm,
          not_true_eq_false, Bool.not_true, if_false, decide_True] using ih nonces calls
      · have := ih nonces (calls + 1)
        simp only [processBatch, if_neg hm, Bool.false_eq_true, if_false,
          List.filter_cons]
        simp only [hm, decide_False, Bool.not_false, if_true, List.map_cons]
        exact ⟨this.1, by rw [this.2]⟩

/-- Witness for C5 at a concrete input: with an always-failing handler the
two-event batch leaves the nonce set empty and records two failed calls. -/
theorem per_event_failure_isolated_witness :
    (processBatch (fun _ => false)
      [⟨3, "0xa"⟩, ⟨4, "0xb"⟩] [] 0).nonces = ([] : List String) ∧
    (processBatch (fun _ => false) [⟨3, "0xa"⟩, ⟨4, "0xb"⟩] [] 0).trace =
      [(⟨3, "0xa"⟩, false), (⟨4, "0xb"⟩, false)] := by
  have h := per_event_failure_isolated.2 [⟨3, "0xa"⟩, ⟨4, "0xb"⟩] [] 0
  refine ⟨h.1, ?_⟩
  rw [h.2]
  rfl

/-- C10: after a failed invocation for an event, a later event of the same
batch carrying the same nonce is not treated as a duplicate: the membership
test sees an unchanged set and the handler is invoked again for that nonce
within the same cycle. -/
theorem failed_nonce_retried_same_batch (proc : Nat → Bool) (e1 e2 : LockEvent)
    (rest : List LockEvent) (nonces : List String) (calls : Nat)
    (hn : e1.transactionNonce = e2.transactionNonce)
    (hm : e1.transactionNonce ∉ nonces)
    (hf : proc calls = false) :
    (processBatch proc (e1 :: e2 :: rest) nonces calls).trace.take 2 =
      [(e1, false), (e2, proc (calls + 1))] ∧
    2 ≤ traceCount (processBatch proc (e1 :: e2 :: rest) nonces calls).trace
        e2.transactionNonce := by
  have hm2 : e2.transactionNonce ∉ nonces := hn ▸ hm
  simp only [processBatch, if_neg hm, hf, Bool.false_eq_true, if_false, if_neg hm2]
  constructor
  · simp [List.take]
  · rw [traceCount_cons, traceCount_cons, if_pos hn, if_pos rfl]
    omega

/-- Witness for C10 at a concrete input: two events with the same nonce in one
batch, first invocation failing — the handler is invoked twice. -/
theorem failed_nonce_retried_same_batch_witness :
    (processBatch (fun _ => false)
      [⟨3, "0xdup"⟩, ⟨4, "0xdup"⟩] [] 0).trace.take 2 =
      [(⟨3, "0xdup"⟩, false), (⟨4, "0xdup"⟩, false)] ∧
    2 ≤ traceCount (processBatch (fun _ => false)
      [⟨3, "0xdup"⟩, ⟨4, "0xdup"⟩] [] 0).trace "0xdup" := by
  have h := failed_nonce_retried_same_batch (fun _ => false)
    ⟨3, "0xdup"⟩ ⟨4, "0xdup"⟩ [] [] 0 rfl (by simp) rfl
  exact h

/-! ## The event handler (src/script.py, RelayerEventHandler) -/

/-- Python exceptions that the handler's steps can raise in the embedding. -/
inductive PyErr where
  | keyError (key : String)
  | requestException
  | other
deriving DecidableEq

/-- Dictionary access event[k] / args[k]: a missing key raises KeyError. -/
def okOr {α : Type} (o : Option α) (e : PyErr) : Except PyErr α :=
  match o with
  | some a => Except.ok a
  | none => Except.error e

/-- The args dictionary of a decoded TokensLocked log; each field may be
missing (a malformed event), in which case reading it raises KeyError. -/
structure EventArgs where
  user : Option String
  token : Option String
  amount : Option Nat
  destinationChainId : Option Nat
  transactionNonce : Option String
deriving DecidableEq

/-- A raw event as handed to process_lock_event: the args dictionary itself
may be missing, and the block number of inclusion. -/
structure RawEvent where
  args : Option EventArgs
  blockNumber : Nat
deriving DecidableEq

/-- The gas parameter dictionary assembled at src/script.py lines 180-186:
either the fallback gas-limit-only set, or the quoted maxFeePerGas and
maxPriorityFeePerGas converted to wei. -/
inductive GasParams where
  | fallback (gas : Nat)
  | quoted (gas maxFeePerGas maxPriorityFeePerGas : Nat)
deriving DecidableEq

/-- The unsigned mint transaction built at src/script.py lines 189-199. -/
structure MintTx where
  user : String
  token : String
  amount : Nat
  sourceTransactionNonce : String
  fromAddr : String
  nonce : Nat
  chainId : Nat
  gasParams : GasParams
deriving DecidableEq

/-- Everything process_lock_event reads from the outside world: whether the
destination connector has a live web3 and contract, the relayer wallet, the
parsed JSON body of the gas-station response (none models a RequestException
or HTTP error), and the destination account's transaction count and chain
id. -/
structure HandlerEnv where
  destConnected : Bool
  relayerWallet : String
  httpResponse : Option (List (String × List (String × Nat)))
  txCount : Nat
  chainId : Nat

/-- web3.to_wei(x, "gwei"). -/
def toWei (gwei : Nat) : Nat := gwei * 1000000000

/-- _get_recommended_gas_price (src/script.py lines 143-153): on any request
or HTTP error return None, otherwise return gas_data.get("fast"). -/
def getRecommendedGasPrice (env : HandlerEnv) : Option (List (String × Nat)) :=
  match env.httpResponse with
  | none => none
  | some gas_data => gas_data.lookup "fast"

/-- The gas limit hard-coded in both branches of the handler. -/
def GAS_LIMIT : Nat := 200000

/-- The body of process_lock_event (src/script.py lines 158-213), before the
enclosing try/except: reads the event fields (KeyError when malformed), fails
fast when the destination is not connected, picks gas parameters — the
fallback when the quote is falsy or has no maxPriorityFeePerGas key,
otherwise the quoted maxFee and maxPriorityFee (KeyError when those keys are
absent) — builds the mint transaction and returns success together with the
emitted transaction. -/
def processLockEventBody (env : HandlerEnv) (event : RawEvent) :
    Except PyErr (Bool × Option MintTx) := do
  let args ← okOr event.args (PyErr.keyError "args")
  let nonceHex ← okOr args.transactionNonce (PyErr.keyError "transactionNonce")
  let user ← okOr args.user (PyErr.keyError "user")
  let token ← okOr args.token (PyErr.keyError "token")
  let amount ← okOr args.amount (PyErr.keyError "amount")
  if !env.destConnected then
    return (false, none)
  let gas_price_info := getRecommendedGasPrice env
  let gas_params ← (match gas_price_info with
    | none => Except.ok (GasParams.fallback GAS_LIMIT)
    | some info =>
      if info.isEmpty || (info.lookup "maxPriorityFeePerGas").isNone then
        Except.ok (GasParams.fallback GAS_LIMIT)
      else do
        let maxFee ← okOr (info.lookup "maxFee") (PyErr.keyError "maxFee")
        let maxPrio ← okOr (info.lookup "maxPriorityFee")
          (PyErr.keyError "maxPriorityFee")
        Except.ok (GasParams.quoted GAS_LIMIT (toWei maxFee) (toWei maxPrio)))
  let txn : MintTx :=
    ⟨user, token, amount, nonceHex, env.relayerWallet, env.txCount, env.chainId,
      gas_params⟩
  return (true, some txn)

/-- process_lock_event with its enclosing try/except (src/script.py lines
157 and 214-216): any exception from the body is caught and surfaces as a
False return. -/
def processLockEvent (env : HandlerEnv) (event : RawEvent) : Bool :=
  match processLockEventBody env event with
  | Except.ok r => r.1
  | Except.error _ => false

/-- The transaction the simulation sink prints, when one was assembled. -/
def emittedTx (env : HandlerEnv) (event : RawEvent) : Option MintTx :=
  match processLockEventBody env event with
  | Except.ok r => r.2
  | Except.error _ => none

/-- Sample well-formed decoded event arguments. -/
def sampleArgs : EventArgs :=
  ⟨some "0xUser", some "0xToken", some 1000, some 80001, some "0xabc"⟩

/-- Sample well-formed raw event. -/
def sampleEvent : RawEvent := ⟨some sampleArgs, 5⟩

/-- Gas-station response whose fast tier contains the key the guard checks
(maxPriorityFeePerGas) but not the keys the quoted branch reads
(maxFee, maxPriorityFee). -/
def quoteMissingUsedFees : HandlerEnv :=
  ⟨true, "0xRelayer", some [("fast", [("maxPriorityFeePerGas", 2)])], 7, 80001⟩

/-- Gas-station response in the shape the external service documents: a fast
tier with maxFee and maxPriorityFee (and no maxPriorityFeePerGas key). -/
def quoteGasStationShape : HandlerEnv :=
  ⟨true, "0xRelayer", some [("fast", [("maxFee", 30), ("maxPriorityFee", 2)])], 7, 80001⟩

/-- Gas-station request failed altogether (RequestException path). -/
def quoteAbsentEnv : HandlerEnv := ⟨true, "0xRelayer", none, 7, 80001⟩

/-- Gas-station response carrying both the checked key and the used keys. -/
def quoteFullEnv : HandlerEnv :=
  ⟨true, "0xRelayer",
   some [("fast", [("maxPriorityFeePerGas", 2), ("maxFee", 30), ("maxPriorityFee", 2)])],
   7, 80001⟩

/-- C4: process_lock_event always returns a boolean and never lets an
exception cross its boundary: any error raised by the body — in particular a
malformed event with no args dictionary or no transactionNonce field —
surfaces as a False return, and a True return can only come from a normal
completion of the body. -/
theorem process_lock_event_never_throws (env : HandlerEnv) (event : RawEvent) :
    (∀ err, processLockEventBody env event = Except.error err →
      processLockEvent env event = false) ∧
    (event.args = none → processLockEvent env event = false) ∧
    (∀ a, event.args = some a → a.transactionNonce = none →
      processLockEvent env event = false) ∧
    (processLockEvent env event = true →
      ∃ r, processLockEventBody env event = Except.ok r ∧ r.1 = true) := by
  refine ⟨?_, ?_, ?_, ?_⟩
  · intro err h
    simp [processLockEvent, h]
  · intro h
    obtain ⟨eargs, bn⟩ := event
    change eargs = none at h
    subst h
    rfl
  · intro a ha hn
    obtain ⟨eargs, bn⟩ := event
    change eargs = some a at ha
    subst ha
    obtain ⟨u, t, am, d, tn⟩ := a
    change tn = none at hn
    subst hn
    rfl
  · intro ht
    cases hb : processLockEventBody env event with
    | ok r =>
      refine ⟨r, rfl, ?_⟩
      simpa [processLockEvent, hb] using ht
    | error e =>
      simp [processLockEvent, hb] at ht

/-- Witness for C4 at a concrete input: a malformed event with no args
dictionary is absorbed as a failure return. -/
theorem process_lock_event_never_throws_witness :
    ((⟨none, 5⟩ : RawEvent).args = none) ∧
    processLockEvent quoteAbsentEnv ⟨none, 5⟩ = false := by
  have h := process_lock_event_never_throws quoteAbsentEnv ⟨none, 5⟩
  exact ⟨rfl, h.2.1 rfl⟩

/-- C6 (refutation of the spec's gas-fallback behavior): the guard at
src/script.py line 177 checks for the key maxPriorityFeePerGas while the
quoted branch reads the keys maxFee and maxPriorityFee.  Hence (a) a quote
that carries the checked key but lacks the used fee fields does not fall
back: the body raises KeyError on maxFee and the call reports failure with
no transaction assembled; (b) a quote in the gas station's documented shape,
which has both used fee fields but not the checked key, is sent to the
fallback instead of having its quoted values used.  Only when a quote
carries the checked key and both used keys are the quoted values used, and
only on a falsy or checked-key-less quote does the fallback-with-success
behavior of the claim occur. -/
theorem gas_fallback_guard_mismatch :
    processLockEventBody quoteMissingUsedFees sampleEvent =
      Except.error (PyErr.keyError "maxFee") ∧
    processLockEvent quoteMissingUsedFees sampleEvent = false ∧
    emittedTx quoteMissingUsedFees sampleEvent = none ∧
    processLockEvent quoteGasStationShape sampleEvent = true ∧
    emittedTx quoteGasStationShape sampleEvent =
      some ⟨"0xUser", "0xToken", 1000, "0xabc", "0xRelayer", 7, 80001,
        GasParams.fallback GAS_LIMIT⟩ ∧
    processLockEvent quoteAbsentEnv sampleEvent = true ∧
    emittedTx quoteAbsentEnv sampleEvent =
      some ⟨"0xUser", "0xToken", 1000, "0xabc", "0xRelayer", 7, 80001,
        GasParams.fallback GAS_LIMIT⟩ ∧
    processLockEvent quoteFullEnv sampleEvent = true ∧
    emittedTx quoteFullEnv sampleEvent =
      some ⟨"0xUser", "0xToken", 1000, "0xabc", "0xRelayer", 7, 80001,
        GasParams.quoted GAS_LIMIT (toWei 30) (toWei 2)⟩ :=
  ⟨rfl, rfl, rfl, rfl, rfl, rfl, rfl, rfl, rfl⟩

/-! ## Connection establishment (src/script.py, ChainConnector._connect) -/

/-- The fixed retry count of _connect (max_retries default, line 84). -/
def MAX_RETRIES : Nat := 3

/-- The fixed inter-attempt delay of _connect in seconds (delay default,
line 84). -/
def RETRY_DELAY_SECONDS : Nat := 5

/-- The terminal error _connect raises after exhausting its retries. -/
inductive ConnErr where
  | connectionError
deriving DecidableEq

/-- What the retry loop of _connect did: whether some attempt succeeded, how
many warning log lines were emitted (one per failed attempt), and how many
inter-attempt sleeps of RETRY_DELAY_SECONDS were taken (one per failed
attempt except the last). -/
structure ConnectTrace where
  connected : Bool
  warnings : Nat
  sleeps : Nat
deriving DecidableEq

/-- The retry loop of _connect (src/script.py lines 86-103): the liveness
oracle says whether attempt i finds the provider connected; a failed attempt
logs a warning and, unless it was the last attempt, sleeps for the fixed
delay.  The first argument is the number of attempts still allowed, the
second the index of the current attempt. -/
def connectFrom (live : Nat → Bool) : Nat → Nat → ConnectTrace
  | 0, _ => ⟨false, 0, 0⟩
  | Nat.succ rem, attempt =>
    if live attempt then ⟨true, 0, 0⟩
    else
      let rest := connectFrom live rem (attempt + 1)
      ⟨rest.connected, rest.warnings + 1, rest.sleeps + (if rem = 0 then 0 else 1)⟩

/-- _connect as a whole (src/script.py lines 84-105): run the retry loop
from attempt 0 and raise ConnectionError when no attempt succeeded. -/
def connectResult (live : Nat → Bool) (max_retries : Nat) : Except ConnErr ConnectTrace :=
  let t := connectFrom live max_retries 0
  if t.connected then Except.ok t else Except.error ConnErr.connectionError

/-- Outcome of CrossChainBridgeListener.__init__ (src/script.py lines
224-249): either the process exits with a status, or both connectors are up
and the dependent event handler was constructed. -/
inductive InitResult where
  | exited (status : Nat)
  | ready (sourceTrace destTrace : ConnectTrace)
deriving DecidableEq

/-- CrossChainBridgeListener.__init__: construct the source connector, then
the destination connector, then the event handler; a ConnectionError from
either construction is caught, logged as critical, and the process exits
with status 1, so no dependent component is constructed. -/
def listenerInit (sourceLive destLive : Nat → Bool) : InitResult :=
  match connectResult sourceLive MAX_RETRIES with
  | Except.error _ => InitResult.exited 1
  | Except.ok st =>
    match connectResult destLive MAX_RETRIES with
    | Except.error _ => InitResult.exited 1
    | Except.ok dt => InitResult.ready st dt

/-- The retry loop under a liveness oracle that always fails: every allowed
attempt is made and warned about, with a sleep between consecutive
attempts. -/
theorem connectFrom_all_fail (live : Nat → Bool) (h : ∀ i, live i = false) :
    ∀ rem attempt, connectFrom live rem attempt = ⟨false, rem, rem - 1⟩ := by
  intro rem
  induction rem with
  | zero => intro attempt; rfl
  | succ n ih =>
    intro attempt
    simp only [connectFrom, h attempt, Bool.false_eq_true, if_false, ih (attempt + 1)]
    cases n with
    | zero => rfl
    | succ m => simp

/-! ## Claim theorem for connection retry exhaustion -/

/-- C7: when the liveness check fails on every attempt, _connect makes
exactly MAX_RETRIES attempts, logs a warning for each, sleeps the fixed
delay between consecutive attempts, and ends in a terminal ConnectionError;
listener construction then does not build any dependent component and exits
the process with the non-zero status 1 — regardless of the destination
chain's liveness. -/
theorem connect_retry_exhaustion (sourceLive destLive : Nat → Bool)
    (h : ∀ i, sourceLive i = false) :
    connectFrom sourceLive MAX_RETRIES 0 = ⟨false, MAX_RETRIES, MAX_RETRIES - 1⟩ ∧
    connectResult sourceLive MAX_RETRIES = Except.error ConnErr.connectionError ∧
    listenerInit sourceLive destLive = InitResult.exited 1 ∧
    (∀ status, listenerInit sourceLive destLive = InitResult.exited status →
      status ≠ 0) := by
  have hc := connectFrom_all_fail sourceLive h MAX_RETRIES 0
  have hr : connectResult sourceLive MAX_RETRIES = Except.error ConnErr.connectionError := by
    simp [connectResult, hc]
  refine ⟨hc, hr, ?_, ?_⟩
  · simp [listenerInit, hr]
  · intro status hs
    simp only [listenerInit, hr] at hs
    cases hs
    omega

/-- Witness for C7 at a concrete input: a connector whose liveness check
always fails exhausts its three retries and the listener exits with
status 1. -/
theorem connect_retry_exhaustion_witness :
    connectResult (fun _ => false) MAX_RETRIES = Except.error ConnErr.connectionError ∧
    listenerInit (fun _ => false) (fun _ => true) = InitResult.exited 1 := by
  have h := connect_retry_exhaustion (fun _ => false) (fun _ => true) (fun _ => rfl)
  exact ⟨h.2.1, h.2.2.1⟩

/-! ## The main loop's fault handling (src/script.py, run and
_poll_for_events) -/

/-- Observable outcome of one iteration of the main loop in run
(src/script.py lines 302-312): the state afterwards, how long the loop then
sleeps, whether the error-level logging.exception inside _poll_for_events
fired, whether the critical top-of-loop handler fired, and whether the
iteration escaped the loop with an exception. -/
structure RunStepResult where
  state : ListenerState
  sleepSeconds : Nat
  errorLogged : Bool
  criticalLogged : Bool
  crashed : Bool
deriving DecidableEq

/-- The try/except wrapped around the whole body of _poll_for_events
(src/script.py lines 262 and 296-297): a cycle core that raises is caught
right there, its exception is logged via logging.exception (error level,
not critical), the state mutations made before the raise are kept, and
nothing propagates to the caller.  The core's error value carries the state
at the moment of the raise. -/
def pollForEventsGuarded (core : ListenerState → Except (ListenerState × PyErr) ListenerState)
    (s : ListenerState) : ListenerState × Bool :=
  match core s with
  | Except.ok s2 => (s2, false)
  | Except.error p => (p.1, true)

/-- The try/except at the top of the while loop in run (src/script.py lines
303-312): a body that completes sleeps the configured interval; a body that
raises is logged as critical and the loop sleeps the extended 60-second
back-off instead. -/
def mainLoopGuard (body : Except PyErr (ListenerState × Bool))
    (fallbackState : ListenerState) : RunStepResult :=
  match body with
  | Except.ok r => ⟨r.1, RUN_INTERVAL_SECONDS, r.2, false, false⟩
  | Except.error _ => ⟨fallbackState, CRITICAL_BACKOFF_SECONDS, false, true, false⟩

/-- One iteration of run: the loop body calls _poll_for_events — whose own
handler already absorbs every exception a cycle can raise — and then sleeps;
the body therefore always reaches the top-of-loop guard as a normal
completion. -/
def runOnce (core : ListenerState → Except (ListenerState × PyErr) ListenerState)
    (s : ListenerState) : RunStepResult :=
  mainLoopGuard (Except.ok (pollForEventsGuarded core s)) s

/-- A cycle core that raises immediately, with no state mutated yet. -/
def throwingCore : ListenerState → Except (ListenerState × PyErr) ListenerState :=
  fun s => Except.error (s, PyErr.other)

/-- C8 counterexample: at the concrete state the listener starts from (cursor
at the configured start block, empty nonce set), an exception raised inside
the poll cycle does not reach the top of the main loop: no critical line is
logged and the loop sleeps the normal 30-second interval, not the extended
60-second back-off the claim requires. -/
theorem cycle_fault_not_critical_counterexample :
    (runOnce throwingCore ⟨1000000, []⟩).criticalLogged = false ∧
    (runOnce throwingCore ⟨1000000, []⟩).errorLogged = true ∧
    (runOnce throwingCore ⟨1000000, []⟩).sleepSeconds = RUN_INTERVAL_SECONDS ∧
    RUN_INTERVAL_SECONDS ≠ CRITICAL_BACKOFF_SECONDS :=
  ⟨rfl, rfl, rfl, by decide⟩

/-- C8 amended: an exception raised inside a poll cycle is caught by the
poll routine's own handler — logged at error level, state kept as at the
raise, never crashing the process — and the loop then sleeps the normal
poll interval; the critical log with the extended 60-second back-off (which
is longer than the 30-second interval) fires only for a body that escapes
the poll routine, which absorbs every cycle exception. -/
theorem cycle_fault_handled_inside_poll
    (core : ListenerState → Except (ListenerState × PyErr) ListenerState)
    (s : ListenerState) :
    (runOnce core s).crashed = false ∧
    (runOnce core s).criticalLogged = false ∧
    (runOnce core s).sleepSeconds = RUN_INTERVAL_SECONDS ∧
    (∀ s2 e, core s = Except.error (s2, e) →
      (runOnce core s).state = s2 ∧ (runOnce core s).errorLogged = true) ∧
    (∀ (e : PyErr) (fs : ListenerState),
      mainLoopGuard (Except.error e) fs =
        ⟨fs, CRITICAL_BACKOFF_SECONDS, false, true, false⟩) ∧
    RUN_INTERVAL_SECONDS < CRITICAL_BACKOFF_SECONDS := by
  refine ⟨rfl, rfl, rfl, ?_, fun e fs => rfl, by decide⟩
  intro s2 e he
  simp [runOnce, mainLoopGuard, pollForEventsGuarded, he]

/-- Witness for the amended C8 at a concrete input: a cycle that raises at
once leaves the state alone, logs at error level, and the loop sleeps the
normal 30-second interval. -/
theorem cycle_fault_handled_inside_poll_witness :
    (runOnce throwingCore ⟨0, []⟩).crashed = false ∧
    (runOnce throwingCore ⟨0, []⟩).state = ⟨0, []⟩ ∧
    (runOnce throwingCore ⟨0, []⟩).errorLogged = true := by
  have h := cycle_fault_handled_inside_poll throwingCore ⟨0, []⟩
  have h2 := h.2.2.2.1 ⟨0, []⟩ PyErr.other rfl
  exact ⟨h.1, h2.1, h2.2⟩

/-! ## Configuration environment overrides (src/config.py) -/

/-- A configuration value: the JSON scalars _cast_value can produce plus
nested objects.  A float result of the cast is kept as the accepted literal
text, since the loader only stores it. -/
inductive CVal where
  | vBool : Bool → CVal
  | vInt : Int → CVal
  | vFloat : String → CVal
  | vStr : String → CVal
  | vDict : List (String × CVal) → CVal

/-- The fixed environment variable lead-in ENV_PREFIX = CORE_ENGINE_. -/
def ENV_PREFIX_STR : String := "CORE_ENGINE_"

/-- Whitespace as stripped by the Python str conversion paths. -/
def isPySpace (c : Char) : Bool :=
  c = ' ' || c = '\t' || c = '\n' || c = '\r' || c = '\x0b' || c = '\x0c'

/-- ASCII lowering of a character sequence, modelling str.lower on the ASCII
configuration keys and values involved. -/
def lowerChars (cs : List Char) : List Char :=
  cs.map Char.toLower

/-- Leading and trailing whitespace removal, modelling str.strip as applied
by the numeric conversions. -/
def trimChars (cs : List Char) : List Char :=
  ((cs.dropWhile isPySpace).reverse.dropWhile isPySpace).reverse

/-- str.lower packaged back into a string. -/
def strToLower (s : String) : String :=
  String.mk (lowerChars s.toList)

/-- Splitting on the fixed NESTED_SEPARATOR, the double underscore,
matching greedily from the left exactly as str.split does. -/
def splitOnDoubleUnderscore : List Char → List (List Char)
  | [] => [[]]
  | '_' :: '_' :: rest => [] :: splitOnDoubleUnderscore rest
  | c :: rest =>
    match splitOnDoubleUnderscore rest with
    | [] => [[c]]
    | g :: gs => (c :: g) :: gs

/-- Digit run as accepted by the Python int and float literal grammar:
nonempty digits with single underscores allowed between digits. -/
def digitsRest : List Char → Bool
  | [] => true
  | '_' :: c :: rest => c.isDigit && digitsRest rest
  | '_' :: [] => false
  | c :: rest => c.isDigit && digitsRest rest

/-- A nonempty underscore-grouped digit run. -/
def digitRun : List Char → Bool
  | [] => false
  | c :: rest => c.isDigit && digitsRest rest

/-- Numeric value of a digit run, ignoring grouping underscores. -/
def natOfDigits (cs : List Char) : Nat :=
  cs.foldl (fun acc c => if c = '_' then acc else acc * 10 + (c.toNat - 48)) 0

/-- Drop one leading sign character, if present. -/
def dropSign : List Char → List Char
  | '+' :: rest => rest
  | '-' :: rest => rest
  | cs => cs

/-- The int(value) call in _cast_value: leading and trailing whitespace is
ignored, then an optional sign and a digit run; None models ValueError. -/
def pyInt (s : String) : Option Int :=
  let cs := trimChars s.toList
  match cs with
  | '+' :: rest => if digitRun rest then some (Int.ofNat (natOfDigits rest)) else none
  | '-' :: rest => if digitRun rest then some (-(Int.ofNat (natOfDigits rest))) else none
  | _ => if digitRun cs then some (Int.ofNat (natOfDigits cs)) else none

/-- Split a character list on a separator character. -/
def splitOnChar (sep : Char) (cs : List Char) : List (List Char) :=
  cs.foldr
    (fun c acc =>
      match acc with
      | [] => [[c]]
      | g :: gs => if c = sep then [] :: g :: gs else (c :: g) :: gs)
    [[]]

/-- Mantissa of a float literal: a digit run, or a digit run and a dot with
the run on at least one side of the dot. -/
def mantissaOk (cs : List Char) : Bool :=
  match splitOnChar '.' cs with
  | [whole] => digitRun whole
  | [whole, frac] =>
    (digitRun whole && (frac.isEmpty || digitRun frac)) ||
    (whole.isEmpty && digitRun frac)
  | _ => false

/-- Exponent part of a float literal: an optional sign and a digit run. -/
def exponentOk (cs : List Char) : Bool :=
  digitRun (dropSign cs)

/-- Whether float(value) accepts the string (ValueError otherwise): after
trimming whitespace and lowering, an optional sign followed by inf, infinity
or nan, or a mantissa with an optional e-exponent. -/
def pyFloatAccepts (s : String) : Bool :=
  let u := dropSign (lowerChars (trimChars s.toList))
  if u = "inf".toList || u = "infinity".toList || u = "nan".toList then true
  else
    match splitOnChar 'e' u with
    | [m] => mantissaOk m
    | [m, ex] => mantissaOk m && exponentOk ex
    | _ => false

/-- _cast_value (src/config.py lines 9-24): boolean-like strings first
(compared on the lowercase), then int, then float, else the string itself. -/
def castValue (value : String) : CVal :=
  let val_lower := strToLower value
  if val_lower = "true" || val_lower = "yes" || val_lower = "1" then
    CVal.vBool true
  else if val_lower = "false" || val_lower = "no" || val_lower = "0" then
    CVal.vBool false
  else
    match pyInt value with
    | some n => CVal.vInt n
    | none => if pyFloatAccepts value then CVal.vFloat value else CVal.vStr value

/-- Replace the value stored under a key of an object, leaving the object
untouched when the key is absent. -/
def setKey (entries : List (String × CVal)) (k : String) (v : CVal) :
    List (String × CVal) :=
  entries.map (fun p => if p.1 = k then (p.1, v) else p)

/-- The per-variable traversal of _update_from_env (src/config.py lines
44-56): walk the path while every intermediate key holds a nested object,
then overwrite the final key only when it already exists at that level.
Returns the structure after the in-place write, or none when the traversal
or the final membership test failed and no write happened. -/
def applyEnvPathAux : List (String × CVal) → List String → String →
    Option (List (String × CVal))
  | _, [], _ => none
  | entries, [k], v =>
    if (entries.lookup k).isSome then some (setKey entries k (castValue v)) else none
  | entries, k :: k2 :: rest, v =>
    match entries.lookup k with
    | some (CVal.vDict sub) =>
      match applyEnvPathAux sub (k2 :: rest) v with
      | some sub2 => some (setKey entries k (CVal.vDict sub2))
      | none => none
    | _ => none

/-- One environment override applied to the configuration: the structure
after the write when the path fully exists, the unchanged structure
otherwise. -/
def applyEnvPath (entries : List (String × CVal)) (path : List String) (v : String) :
    List (String × CVal) :=
  (applyEnvPathAux entries path v).getD entries

/-- Whether the override path fully exists in the base structure, in the
sense the traversal of _update_from_env requires: every intermediate key
holds a nested object and the final key is present at the final level. -/
def pathExists : List (String × CVal) → List String → Bool
  | _, [] => false
  | entries, [k] => (entries.lookup k).isSome
  | entries, k :: k2 :: rest =>
    match entries.lookup k with
    | some (CVal.vDict sub) => pathExists sub (k2 :: rest)
    | _ => false

/-- Read the value stored at a path, descending through nested objects. -/
def lookupPath : List (String × CVal) → List String → Option CVal
  | _, [] => none
  | entries, [k] => entries.lookup k
  | entries, k :: k2 :: rest =>
    match entries.lookup k with
    | some (CVal.vDict sub) => lookupPath sub (k2 :: rest)
    | _ => none

/-- Turning one environment variable name into an override path
(src/config.py lines 32-41): names without the fixed lead-in are ignored;
otherwise the remainder is lowercased and split on the double separator. -/
def envKeyPath (envKey : String) : Option (List String) :=
  if ENV_PREFIX_STR.toList.isPrefixOf envKey.toList then
    some ((splitOnDoubleUnderscore
      (lowerChars (envKey.toList.drop ENV_PREFIX_STR.toList.length))).map
        (fun cs => String.mk cs))
  else none

/-- _update_from_env over a whole environment, processed in order. -/
def updateFromEnv (config : List (String × CVal)) (env : List (String × String)) :
    List (String × CVal) :=
  env.foldl
    (fun cfg kv =>
      match envKeyPath kv.1 with
      | none => cfg
      | some path => applyEnvPath cfg path kv.2)
    config

/-- Looking a key up after overwriting it yields the new value, provided the
key was present. -/
theorem lookup_setKey_self (entries : List (String × CVal)) (k : String) (v : CVal)
    (h : (entries.lookup k).isSome) : (setKey entries k v).lookup k = some v := by
  induction entries with
  | nil => simp [List.lookup] at h
  | cons p rest ih =>
    obtain ⟨pk, pv⟩ := p
    by_cases hk : pk = k
    · subst hk
      have hhead : setKey ((pk, pv) :: rest) pk v = (pk, v) :: setKey rest pk v := by
        simp [setKey]
      rw [hhead]
      simp [List.lookup]
    · have hk2 : (k == pk) = false := by
        simp [Ne.symm hk]
      have hhead : setKey ((pk, pv) :: rest) k v = (pk, pv) :: setKey rest k v := by
        simp [setKey, hk]
      have h2 : (rest.lookup k).isSome := by
        simpa [List.lookup, hk2] using h
      rw [hhead]
      simpa [List.lookup, hk2] using ih h2

/-- The write of one environment override happens exactly when the path
fully exists in the base structure. -/
theorem applyEnvPathAux_isSome (path : List String) :
    ∀ (entries : List (String × CVal)) (v : String),
      (applyEnvPathAux entries path v).isSome = pathExists entries path := by
  induction path with
  | nil =>
    intro entries v
    rfl
  | cons k rest ih =>
    intro entries v
    cases rest with
    | nil =>
      simp only [applyEnvPathAux, pathExists]
      split <;> simp [*]
    | cons k2 rest2 =>
      simp only [applyEnvPathAux, pathExists]
      cases hl : entries.lookup k with
      | none => rfl
      | some cv =>
        cases cv with
        | vDict sub =>
          show (match applyEnvPathAux sub (k2 :: rest2) v with
            | some sub2 => some (setKey entries k (CVal.vDict sub2))
            | none => none).isSome = pathExists sub (k2 :: rest2)
          rw [← ih sub v]
          cases applyEnvPathAux sub (k2 :: rest2) v <;> rfl
        | vBool b => rfl
        | vInt n => rfl
        | vFloat f => rfl
        | vStr t => rfl

/-- A path that does not fully exist leaves the configuration unchanged. -/
theorem applyEnvPath_not_exists (path : List String) (entries : List (String × CVal))
    (v : String) (h : pathExists entries path = false) :
    applyEnvPath entries path v = entries := by
  have h2 : (applyEnvPathAux entries path v).isSome = false := by
    rw [applyEnvPathAux_isSome, h]
  unfold applyEnvPath
  cases hx : applyEnvPathAux entries path v with
  | none => rfl
  | some r => rw [hx] at h2; simp at h2

/-- Inversion of a successful traversal step: a two-or-more-component path
exists only through a nested object under its first key. -/
theorem pathExists_cons_cons_true {entries : List (String × CVal)} {k k2 : String}
    {rest : List String} (h : pathExists entries (k :: k2 :: rest) = true) :
    ∃ sub, entries.lookup k = some (CVal.vDict sub) ∧
      pathExists sub (k2 :: rest) = true := by
  rw [show pathExists entries (k :: k2 :: rest) =
      (match entries.lookup k with
        | some (CVal.vDict sub) => pathExists sub (k2 :: rest)
        | _ => false) from rfl] at h
  cases hl : entries.lookup k with
  | none =>
    rw [hl] at h
    exact Bool.noConfusion h
  | some cv =>
    rw [hl] at h
    cases cv with
    | vDict sub =>
      dsimp only at h
      exact ⟨sub, rfl, h⟩
    | vBool b => exact Bool.noConfusion h
    | vInt n => exact Bool.noConfusion h
    | vFloat f => exact Bool.noConfusion h
    | vStr t => exact Bool.noConfusion h

/-- A path that fully exists ends up holding the cast override value. -/
theorem applyEnvPath_exists (path : List String) :
    ∀ (entries : List (String × CVal)) (v : String),
      pathExists entries path = true →
      lookupPath (applyEnvPath entries path v) path = some (castValue v) := by
  induction path with
  | nil =>
    intro entries v h
    simp [pathExists] at h
  | cons k rest ih =>
    intro entries v h
    cases rest with
    | nil =>
      simp only [pathExists] at h
      simp only [applyEnvPath, applyEnvPathAux, h, if_true, Option.getD_some, lookupPath]
      exact lookup_setKey_self entries k (castValue v) h
    | cons k2 rest2 =>
      obtain ⟨sub, hl, hex⟩ := pathExists_cons_cons_true h
      have hsub := ih sub v hex
      have hsome : (applyEnvPathAux sub (k2 :: rest2) v).isSome = true := by
        rw [applyEnvPathAux_isSome, hex]
      cases hx : applyEnvPathAux sub (k2 :: rest2) v with
      | none => rw [hx] at hsome; simp at hsome
      | some sub2 =>
        have hw : applyEnvPath entries (k :: k2 :: rest2) v =
            setKey entries k (CVal.vDict sub2) := by
          simp only [applyEnvPath, applyEnvPathAux, hl, hx, Option.getD_some]
        rw [hw]
        have hk2 : (setKey entries k (CVal.vDict sub2)).lookup k =
            some (CVal.vDict sub2) :=
          lookup_setKey_self entries k (CVal.vDict sub2) (by rw [hl]; rfl)
        simp only [lookupPath, hk2]
        simpa [applyEnvPath, hx] using hsub

/-- C9: an environment variable overrides a configuration value only when
its prefixed, double-separator path fully exists in the base structure —
otherwise, and for variables without the fixed lead-in, the configuration is
left unchanged — and the override string is coerced trying boolean-like
strings first (so "1" becomes True, not the integer 1), then integer, then
float, else kept as a string. -/
theorem env_override_gated_and_coerced (cfg : List (String × CVal)) (k v : String) :
    (envKeyPath k = none → updateFromEnv cfg [(k, v)] = cfg) ∧
    (∀ path, envKeyPath k = some path → pathExists cfg path = false →
      updateFromEnv cfg [(k, v)] = cfg) ∧
    (∀ path, envKeyPath k = some path → pathExists cfg path = true →
      lookupPath (updateFromEnv cfg [(k, v)]) path = some (castValue v)) ∧
    (∀ s : String, (strToLower s = "true" ∨ strToLower s = "yes" ∨ strToLower s = "1") →
      castValue s = CVal.vBool true) ∧
    (∀ s : String, (strToLower s = "false" ∨ strToLower s = "no" ∨ strToLower s = "0") →
      castValue s = CVal.vBool false) ∧
    castValue "1" = CVal.vBool true ∧
    castValue "42" = CVal.vInt 42 ∧
    castValue "-7" = CVal.vInt (-7) ∧
    castValue "3.5" = CVal.vFloat "3.5" ∧
    castValue "2e3" = CVal.vFloat "2e3" ∧
    castValue "hello" = CVal.vStr "hello" := by
  have hsingle : updateFromEnv cfg [(k, v)] =
      (match envKeyPath k with
        | none => cfg
        | some path => applyEnvPath cfg path v) := rfl
  refine ⟨?_, ?_, ?_, ?_, ?_, rfl, rfl, rfl, rfl, rfl, rfl⟩
  · intro hk
    rw [hsingle, hk]
  · intro path hk hex
    rw [hsingle, hk]
    exact applyEnvPath_not_exists path cfg v hex
  · intro path hk hex
    rw [hsingle, hk]
    exact applyEnvPath_exists path cfg v hex
  · intro s hs
    rcases hs with h | h | h <;> simp [castValue, h]
  · intro s hs
    rcases hs with h | h | h <;> simp [castValue, h]

/-- Witness for C9 at concrete inputs: an existing nested key is overridden
with the cast value, and a variable naming an unknown path leaves the
configuration untouched. -/
theorem env_override_gated_and_coerced_witness :
    lookupPath (updateFromEnv
      [("source_chain", CVal.vDict [("start_block", CVal.vInt 1000000)]),
       ("run_interval_seconds", CVal.vInt 30)]
      [("CORE_ENGINE_SOURCE_CHAIN__START_BLOCK", "5")])
      ["source_chain", "start_block"] = some (CVal.vInt 5) ∧
    updateFromEnv
      [("source_chain", CVal.vDict [("start_block", CVal.vInt 1000000)]),
       ("run_interval_seconds", CVal.vInt 30)]
      [("CORE_ENGINE_UNKNOWN__KEY", "1")] =
      [("source_chain", CVal.vDict [("start_block", CVal.vInt 1000000)]),
       ("run_interval_seconds", CVal.vInt 30)] := by
  constructor
  · have h := (env_override_gated_and_coerced
      [("source_chain", CVal.vDict [("start_block", CVal.vInt 1000000)]),
       ("run_interval_seconds", CVal.vInt 30)]
      "CORE_ENGINE_SOURCE_CHAIN__START_BLOCK" "5").2.2.1
      ["source_chain", "start_block"] rfl rfl
    rw [h]
    rfl
  · exact (env_override_gated_and_coerced
      [("source_chain", CVal.vDict [("start_block", CVal.vInt 1000000)]),
       ("run_interval_seconds", CVal.vInt 30)]
      "CORE_ENGINE_UNKNOWN__KEY" "1").2.1 ["unknown", "key"] rfl rfl

end CoreEngine
